import Mathlib

/-!
# Verification of the vocabulary-quiz core (crezard/vocab)

Shallow embedding of the quiz-question builder and the quiz-session state
machine of the VocabMaster application (`src/index.tsx`, the `QuizMode`
component, and `src/services/gemini.ts`), together with proofs of the
specification's testable properties.

Modelling conventions:
* JavaScript strings are Lean `String`s; `w.term !== t.term` becomes the
  boolean `w.term != t.term`.
* `Array.prototype.sort` with the inconsistent comparator
  `() => 0.5 - Math.random()` returns an implementation-defined
  reordering of the array; per the ECMAScript standard the result is always a
  permutation of the input.  The two sort calls per question are therefore
  modelled by shuffle functions, indexed by the question position, about which
  theorems assume only that they permute their input.
* JavaScript truthiness: the guard `if (selectedAnswer) return` treats both
  `null` and the empty string as "no answer yet"; `truthy` models this.
* `Math.round` over the nonnegative values occurring here is `⌊x + 1/2⌋`, and
  JavaScript division is modelled by exact rational division.
-/

/-- The `Word` record of `src/unnamed/part_000` / `src/index.tsx`
(`term`, `definition`, `example`, `partOfSpeech`, optional `pronunciation`).
The `example` field is renamed `example'` because `example` is a Lean keyword. -/
structure Word where
  term : String
  definition : String
  example' : String
  partOfSpeech : String
  pronunciation : Option String
deriving DecidableEq, Repr, Inhabited

/-- A quiz question as produced by the `questions` memo in `QuizMode`. -/
structure QuizQuestion where
  word : Word
  options : List String
  correctAnswer : String
deriving DecidableEq, Repr, Inhabited

/-- One iteration of the `words.map` body in the `questions` memo:
filter out words with the target's term, shuffle, keep the first three
definitions as distractors, append the correct definition and shuffle again.
`shufD` stands for the first `sort(() => 0.5 - Math.random())` call and
`shufO` for the second. -/
def buildQuestion (shufD : List Word → List Word) (shufO : List String → List String)
    (words : List Word) (targetWord : Word) : QuizQuestion :=
  let otherWords := words.filter (fun w => w.term != targetWord.term)
  let distractors := ((shufD otherWords).take 3).map (fun w => w.definition)
  let options := shufO (distractors ++ [targetWord.definition])
  { word := targetWord, options := options, correctAnswer := targetWord.definition }

/-- The `questions` memo of `QuizMode`: one question per input word, in input
order.  The shuffle families are indexed by the question position because each
iteration draws fresh randomness. -/
def buildQuestions (shufD : Nat → List Word → List Word)
    (shufO : Nat → List String → List String) (words : List Word) : List QuizQuestion :=
  words.enum.map (fun p => buildQuestion (shufD p.1) (shufO p.1) words p.2)

/-- The component state of `QuizMode` (`useState` hooks). -/
structure QuizState where
  currentIndex : Nat
  score : Nat
  showResult : Bool
  selectedAnswer : Option String
  isCorrect : Option Bool
deriving DecidableEq, Repr

/-- The initial `QuizMode` state: index 0, score 0, no result shown, nothing
selected. -/
def initialQuizState : QuizState :=
  { currentIndex := 0, score := 0, showResult := false,
    selectedAnswer := none, isCorrect := none }

/-- JavaScript truthiness of `selectedAnswer : string | null`:
`null` and `""` are falsy, every other string is truthy. -/
def truthy : Option String → Bool
  | none => false
  | some s => s != ""

/-- `handleAnswer` of `QuizMode`.  The guard is `if (selectedAnswer) return`,
i.e. a truthiness test.  `currentQuestion` is `questions[currentIndex]`; an
out-of-bounds access would throw in JavaScript and is modelled as comparing
against no answer (it is unreachable from the initial state over a non-empty
question list, see the bounds invariant below). -/
def handleAnswer (questions : List QuizQuestion) (s : QuizState) (answer : String) :
    QuizState :=
  if truthy s.selectedAnswer then s
  else
    let correct :=
      match questions.get? s.currentIndex with
      | some q => answer == q.correctAnswer
      | none => false
    { s with
      selectedAnswer := some answer
      isCorrect := some correct
      score := if correct then s.score + 1 else s.score }

/-- `nextQuestion` of `QuizMode`.  The comparison
`currentIndex < questions.length - 1` is over JavaScript numbers, hence the
cast to `Int` (with an empty list the right side is `-1`). -/
def nextQuestion (questions : List QuizQuestion) (s : QuizState) : QuizState :=
  if (s.currentIndex : Int) < (questions.length : Int) - 1 then
    { s with
      currentIndex := s.currentIndex + 1
      selectedAnswer := none
      isCorrect := none }
  else
    { s with showResult := true }

/-- The two user-driven operations on a quiz session. -/
inductive QuizOp where
  | submit (answer : String)
  | advance
deriving DecidableEq, Repr

/-- One operation applied to the session state. -/
def stepOp (questions : List QuizQuestion) (s : QuizState) : QuizOp → QuizState
  | .submit a => handleAnswer questions s a
  | .advance => nextQuestion questions s

/-- A whole interaction: the operations applied in order. -/
def runOps (questions : List QuizQuestion) (s : QuizState) (ops : List QuizOp) :
    QuizState :=
  ops.foldl (stepOp questions) s

/-- `Math.round` on the nonnegative rationals arising here: round half up. -/
def jsRound (q : ℚ) : Int := ⌊q + 1/2⌋

/-- The result-screen percentage: `Math.round((score / words.length) * 100)`,
with JavaScript division modelled as exact rational division. -/
def percentage (score total : Nat) : Int :=
  jsRound ((score : ℚ) / (total : ℚ) * 100)

/-- `generateWordList` of `src/services/gemini.ts`, abstracted over the
outcome of the external call and of `JSON.parse`:
`response` is `.error _` when `await ai.models.generateContent` throws, and
otherwise carries `response.text` (`none` for a missing text);
`parse` is `.error _` when `JSON.parse` throws.  The function trims the text,
returns `[]` when the trimmed text is empty or missing, and returns `[]` from
the surrounding `catch` on any thrown error. -/
def generateWordList (response : Except Unit (Option String))
    (parse : String → Except Unit (List Word)) : List Word :=
  match response with
  | .error _ => []
  | .ok txt =>
    match txt with
    | none => []
    | some t =>
      let jsonStr := t.trim
      if jsonStr == "" then []
      else
        match parse jsonStr with
        | .error _ => []
        | .ok ws => ws

/-! ## Helper lemmas about the question builder -/

theorem buildQuestions_get? (shufD : Nat → List Word → List Word)
    (shufO : Nat → List String → List String) (ws : List Word) (i : Nat) :
    (buildQuestions shufD shufO ws).get? i =
      (ws.get? i).map (fun w => buildQuestion (shufD i) (shufO i) ws w) := by
  simp only [buildQuestions, List.get?_map, List.get?_enum, Option.map_map]
  rfl

theorem buildQuestions_length (shufD : Nat → List Word → List Word)
    (shufO : Nat → List String → List String) (ws : List Word) :
    (buildQuestions shufD shufO ws).length = ws.length := by
  simp [buildQuestions]

theorem mem_buildQuestions (shufD : Nat → List Word → List Word)
    (shufO : Nat → List String → List String) (ws : List Word) (q : QuizQuestion)
    (hq : q ∈ buildQuestions shufD shufO ws) :
    ∃ i w, w ∈ ws ∧ q = buildQuestion (shufD i) (shufO i) ws w := by
  obtain ⟨i, hi⟩ := List.mem_iff_get?.mp hq
  rw [buildQuestions_get? shufD shufO ws i] at hi
  cases hw : ws.get? i with
  | none => rw [hw] at hi; cases hi
  | some w =>
    rw [hw] at hi
    exact ⟨i, w, List.get?_mem hw, (Option.some_inj.mp hi).symm⟩

/-- With pairwise-distinct terms, filtering out the words whose term equals
a list member's term removes exactly that member. -/
theorem length_filter_term_ne (ws : List Word) (w : Word) (hw : w ∈ ws)
    (hnd : (ws.map Word.term).Nodup) :
    (ws.filter (fun x => x.term != w.term)).length = ws.length - 1 := by
  induction ws with
  | nil => cases hw
  | cons y ys ih =>
    simp only [List.map_cons, List.nodup_cons] at hnd
    obtain ⟨hy, hys⟩ := hnd
    rcases List.mem_cons.mp hw with rfl | hmem
    · have hfil : ys.filter (fun x => x.term != w.term) = ys := by
        apply List.filter_eq_self.mpr
        intro a ha
        simp only [bne_iff_ne, ne_eq, decide_eq_true_eq]
        intro hEq
        exact hy (hEq ▸ List.mem_map_of_mem Word.term ha)
      simp [List.filter_cons, hfil]
    · have hterm_ne : (y.term != w.term) = true := by
        simp only [bne_iff_ne, ne_eq]
        intro hEq
        exact hy (hEq ▸ List.mem_map_of_mem Word.term hmem)
      have hpos : 1 ≤ ys.length := List.length_pos.mpr (List.ne_nil_of_mem hmem)
      simp only [List.filter_cons, hterm_ne, if_true, List.length_cons,
        ih hmem hys]
      omega

/-- Every distractor of a question is the definition of some input word whose
term differs from the target's. -/
theorem mem_distractors (shufD : List Word → List Word) (ws : List Word) (w : Word)
    (hσ : ∀ l, (shufD l).Perm l) (d : String)
    (hd : d ∈ ((shufD (ws.filter (fun x => x.term != w.term))).take 3).map
      (fun x => x.definition)) :
    ∃ x, x ∈ ws ∧ x.term ≠ w.term ∧ d = x.definition := by
  obtain ⟨x, hx, rfl⟩ := List.mem_map.mp hd
  have hx' : x ∈ ws.filter (fun y => y.term != w.term) :=
    (hσ _).mem_iff.mp (List.mem_of_mem_take hx)
  obtain ⟨hxw, hterm⟩ := List.mem_filter.mp hx'
  exact ⟨x, hxw, by simpa using hterm, rfl⟩

/-- Core facts about a single built question, for a target word drawn from a
list with pairwise-distinct terms: the number of options is `min 4 |ws|`, the
correct answer is the target's definition, and — when definitions are also
pairwise distinct — the options are duplicate-free and contain the correct
answer exactly once. -/
theorem buildQuestion_spec (shufD : List Word → List Word)
    (shufO : List String → List String)
    (hσ : ∀ l, (shufD l).Perm l) (hτ : ∀ l, (shufO l).Perm l)
    (ws : List Word) (w : Word) (hw : w ∈ ws)
    (hterm : (ws.map Word.term).Nodup) :
    (buildQuestion shufD shufO ws w).options.length = min 4 ws.length ∧
    (buildQuestion shufD shufO ws w).correctAnswer = w.definition ∧
    ((ws.map Word.definition).Nodup →
      (buildQuestion shufD shufO ws w).options.count w.definition = 1 ∧
      (buildQuestion shufD shufO ws w).options.Nodup) := by
  have hpos : 1 ≤ ws.length := List.length_pos.mpr (List.ne_nil_of_mem hw)
  set other := ws.filter (fun x => x.term != w.term) with hother
  set distractors := ((shufD other).take 3).map (fun x => x.definition)
    with hdistractors
  have hperm : (buildQuestion shufD shufO ws w).options.Perm
      (distractors ++ [w.definition]) := hτ _
  have hotherlen : other.length = ws.length - 1 :=
    length_filter_term_ne ws w hw hterm
  have hdlen : distractors.length = min 3 (ws.length - 1) := by
    rw [hdistractors, List.length_map, List.length_take, (hσ other).length_eq,
      hotherlen]
  refine ⟨?_, rfl, ?_⟩
  · rw [hperm.length_eq, List.length_append, hdlen]
    simp only [List.length_singleton]
    omega
  · intro hdef
    have hnotmem : w.definition ∉ distractors := by
      intro hmem
      obtain ⟨x, hxw, hxterm, hxdef⟩ := mem_distractors shufD ws w hσ _ hmem
      exact hxterm (congrArg Word.term
        (List.inj_on_of_nodup_map hdef hxw hw hxdef.symm))
    constructor
    · rw [hperm.count_eq, List.count_append, List.count_eq_zero.mpr hnotmem]
      simp
    · apply hperm.nodup_iff.mpr
      have hws_nodup : ws.Nodup := hdef.of_map
      have hshuf_nodup : (shufD other).Nodup :=
        ((hσ other).nodup_iff).mpr (hws_nodup.filter _)
      have htake_nodup : ((shufD other).take 3).Nodup :=
        (List.take_sublist 3 (shufD other)).nodup hshuf_nodup
      have hdist_nodup : distractors.Nodup := by
        refine htake_nodup.map_on ?_
        intro x hx y hy hxy
        have hx' : x ∈ ws :=
          (List.mem_filter.mp ((hσ _).mem_iff.mp (List.mem_of_mem_take hx))).1
        have hy' : y ∈ ws :=
          (List.mem_filter.mp ((hσ _).mem_iff.mp (List.mem_of_mem_take hy))).1
        exact List.inj_on_of_nodup_map hdef hx' hy' hxy
      refine hdist_nodup.append (List.nodup_singleton _) ?_
      intro a ha ha'
      rw [List.mem_singleton] at ha'
      exact hnotmem (ha' ▸ ha)

/-! ## Concrete instances used by witnesses and counterexamples -/

/-- The identity reordering, indexed per question; a legitimate outcome of the
implementation-defined `sort` with an inconsistent comparator. -/
def idShufD : Nat → List Word → List Word := fun _ l => l

/-- The identity reordering for the option shuffle. -/
def idShufO : Nat → List String → List String := fun _ l => l

/-- Build a word with the given term and definition. -/
def mkWord (t d : String) : Word :=
  { term := t, definition := d, example' := "", partOfSpeech := "", pronunciation := none }

/-- The spec's four-word scenario list. -/
def wsFour : List Word :=
  [mkWord "cat" "고양이", mkWord "dog" "개", mkWord "sun" "해", mkWord "moon" "달"]

/-- Four words sharing one term but with four distinct definitions. -/
def wsSameTerm : List Word :=
  [mkWord "a" "d1", mkWord "a" "d2", mkWord "a" "d3", mkWord "a" "d4"]

/-- Five words with distinct terms, two of which share a definition; four
distinct definitions in total. -/
def wsDupDef : List Word :=
  [mkWord "a" "x", mkWord "b" "x", mkWord "c" "y", mkWord "d" "z", mkWord "e" "w"]

/-- Three words with distinct terms and only two distinct definitions. -/
def wsDupDefSmall : List Word :=
  [mkWord "a" "x", mkWord "b" "x", mkWord "c" "y"]

/-- Three words with three distinct definitions but a repeated term. -/
def wsDupTermSmall : List Word :=
  [mkWord "a" "x", mkWord "a" "y", mkWord "b" "z"]

/-! ## C1, C2, C7: the question builder -/

/-- C1 (amended): for every word list with pairwise-distinct terms,
pairwise-distinct definitions and at least 4 entries, `buildQuestions` returns
exactly one question per input word, and each question has exactly 4 options
containing its `correctAnswer` exactly once — for every possible outcome of
the two shuffles. -/
theorem buildQuestions_four_options (shufD : Nat → List Word → List Word)
    (shufO : Nat → List String → List String)
    (hσ : ∀ i l, (shufD i l).Perm l) (hτ : ∀ i l, (shufO i l).Perm l)
    (ws : List Word) (hterm : (ws.map Word.term).Nodup)
    (hdef : (ws.map Word.definition).Nodup) (hlen : 4 ≤ ws.length) :
    (buildQuestions shufD shufO ws).length = ws.length ∧
    ∀ q ∈ buildQuestions shufD shufO ws,
      q.options.length = 4 ∧ q.options.count q.correctAnswer = 1 := by
  refine ⟨buildQuestions_length shufD shufO ws, ?_⟩
  intro q hq
  obtain ⟨i, w, hw, rfl⟩ := mem_buildQuestions shufD shufO ws q hq
  obtain ⟨h1, h2, h3⟩ :=
    buildQuestion_spec (shufD i) (shufO i) (hσ i) (hτ i) ws w hw hterm
  obtain ⟨hc, -⟩ := h3 hdef
  refine ⟨?_, ?_⟩
  · rw [h1]; omega
  · rw [h2]; exact hc

/-- C1 witness: the four-word scenario list with the identity shuffles. -/
theorem buildQuestions_four_options_witness :
    (buildQuestions idShufD idShufO wsFour).length = wsFour.length ∧
    ∀ q ∈ buildQuestions idShufD idShufO wsFour,
      q.options.length = 4 ∧ q.options.count q.correctAnswer = 1 :=
  buildQuestions_four_options idShufD idShufO
    (fun _ l => List.Perm.refl l) (fun _ l => List.Perm.refl l)
    wsFour (by decide) (by decide) (by decide)

/-- C1 counterexample to the claim as stated: both inputs are non-empty lists
with (at least) 4 distinct definitions, yet for `wsSameTerm` (one term shared
by all entries) the first question has a single option rather than 4, and for
`wsDupDef` (two entries sharing a definition) the first question contains its
correct answer twice. -/
theorem buildQuestions_four_options_cex :
    ((wsSameTerm.map Word.definition).dedup.length = 4 ∧ wsSameTerm ≠ [] ∧
      ((buildQuestions idShufD idShufO wsSameTerm).get? 0).map
        (fun q => q.options.length) = some 1) ∧
    ((wsDupDef.map Word.definition).dedup.length = 4 ∧ wsDupDef ≠ [] ∧
      ((buildQuestions idShufD idShufO wsDupDef).get? 0).map
        (fun q => q.options.count q.correctAnswer) = some 2) := by
  decide

/-- C2 (amended): for every word list with pairwise-distinct terms and
pairwise-distinct definitions and fewer than 4 distinct definitions, each
question's option count equals the number of distinct definitions available,
with no duplicate option strings and the correct answer present exactly
once — for every possible outcome of the two shuffles. -/
theorem buildQuestions_few_definitions (shufD : Nat → List Word → List Word)
    (shufO : Nat → List String → List String)
    (hσ : ∀ i l, (shufD i l).Perm l) (hτ : ∀ i l, (shufO i l).Perm l)
    (ws : List Word) (hterm : (ws.map Word.term).Nodup)
    (hdef : (ws.map Word.definition).Nodup)
    (hfew : (ws.map Word.definition).dedup.length < 4) :
    ∀ q ∈ buildQuestions shufD shufO ws,
      q.options.length = (ws.map Word.definition).dedup.length ∧
      q.options.Nodup ∧ q.options.count q.correctAnswer = 1 := by
  have hded : (ws.map Word.definition).dedup = ws.map Word.definition :=
    List.dedup_eq_self.mpr hdef
  have hdedlen : (ws.map Word.definition).dedup.length = ws.length := by
    rw [hded, List.length_map]
  intro q hq
  obtain ⟨i, w, hw, rfl⟩ := mem_buildQuestions shufD shufO ws q hq
  obtain ⟨h1, h2, h3⟩ :=
    buildQuestion_spec (shufD i) (shufO i) (hσ i) (hτ i) ws w hw hterm
  obtain ⟨hc, hnodup⟩ := h3 hdef
  refine ⟨?_, hnodup, ?_⟩
  · rw [h1, hdedlen]
    omega
  · rw [h2]; exact hc

/-- C2 witness: the first question over the first three words of the scenario
list (three distinct definitions) with the identity shuffles. -/
theorem buildQuestions_few_definitions_witness :
    (buildQuestions idShufD idShufO (wsFour.take 3)).headI.options.length =
      ((wsFour.take 3).map Word.definition).dedup.length ∧
    (buildQuestions idShufD idShufO (wsFour.take 3)).headI.options.Nodup ∧
    (buildQuestions idShufD idShufO (wsFour.take 3)).headI.options.count
      (buildQuestions idShufD idShufO (wsFour.take 3)).headI.correctAnswer = 1 :=
  buildQuestions_few_definitions idShufD idShufO
    (fun _ l => List.Perm.refl l) (fun _ l => List.Perm.refl l)
    (wsFour.take 3) (by decide) (by decide) (by decide)
    (buildQuestions idShufD idShufO (wsFour.take 3)).headI (by decide)

/-- C2 counterexample to the claim as stated: both inputs have fewer than 4
distinct definitions, yet for `wsDupDefSmall` (a duplicated definition) the
first question has 3 options — not 2, the number of distinct definitions — and
one of them repeats; for `wsDupTermSmall` (a duplicated term) the first
question has 2 options rather than 3. -/
theorem buildQuestions_few_definitions_cex :
    ((wsDupDefSmall.map Word.definition).dedup.length = 2 ∧
      ((buildQuestions idShufD idShufO wsDupDefSmall).get? 0).map
        (fun q => q.options.length) = some 3 ∧
      ((buildQuestions idShufD idShufO wsDupDefSmall).get? 0).map
        (fun q => q.options.dedup.length) = some 2) ∧
    ((wsDupTermSmall.map Word.definition).dedup.length = 3 ∧
      ((buildQuestions idShufD idShufO wsDupTermSmall).get? 0).map
        (fun q => q.options.length) = some 2) := by
  decide

/-- C7: `buildQuestions` is order-preserving — the output has the input's
length, the `i`-th question's `word` is the `i`-th input word, and its
`correctAnswer` is that word's definition, for arbitrary shuffle outcomes. -/
theorem buildQuestions_order_preserving (shufD : Nat → List Word → List Word)
    (shufO : Nat → List String → List String) (ws : List Word) (i : Nat) :
    (buildQuestions shufD shufO ws).length = ws.length ∧
    ((buildQuestions shufD shufO ws).get? i).map QuizQuestion.word = ws.get? i ∧
    ((buildQuestions shufD shufO ws).get? i).map QuizQuestion.correctAnswer =
      (ws.get? i).map Word.definition := by
  refine ⟨buildQuestions_length shufD shufO ws, ?_, ?_⟩ <;>
  · rw [buildQuestions_get?]
    cases ws.get? i <;> rfl

/-! ## Helper lemmas about the session state machine -/

/-- Whether the submitted answer matches the current question
(`answer === currentQuestion.correctAnswer`). -/
def answeredCorrectly (qs : List QuizQuestion) (s : QuizState) (a : String) : Bool :=
  match qs.get? s.currentIndex with
  | some q => a == q.correctAnswer
  | none => false

theorem handleAnswer_of_truthy (qs : List QuizQuestion) (s : QuizState) (a : String)
    (hsel : truthy s.selectedAnswer = true) : handleAnswer qs s a = s := by
  simp [handleAnswer, hsel]

theorem handleAnswer_of_falsy (qs : List QuizQuestion) (s : QuizState) (a : String)
    (hsel : truthy s.selectedAnswer = false) :
    handleAnswer qs s a =
      { s with
        selectedAnswer := some a
        isCorrect := some (answeredCorrectly qs s a)
        score := if answeredCorrectly qs s a then s.score + 1 else s.score } := by
  simp [handleAnswer, hsel, answeredCorrectly]

/-- No operation ever lowers the score. -/
theorem score_mono_step (qs : List QuizQuestion) (s : QuizState) (op : QuizOp) :
    s.score ≤ (stepOp qs s op).score := by
  cases op with
  | submit a =>
    show s.score ≤ (handleAnswer qs s a).score
    cases hsel : truthy s.selectedAnswer
    · rw [handleAnswer_of_falsy qs s a hsel]
      dsimp only
      split <;> omega
    · rw [handleAnswer_of_truthy qs s a hsel]
  | advance =>
    show s.score ≤ (nextQuestion qs s).score
    rw [nextQuestion]
    split <;> exact Nat.le_refl _

/-- The inductive score bound: while the result screen is not shown, the score
is at most the index plus one for an already-answered current question. -/
def scoreInv (s : QuizState) : Prop :=
  s.showResult = false →
    s.score ≤ s.currentIndex + (if truthy s.selectedAnswer then 1 else 0)

theorem scoreInv_step (qs : List QuizQuestion) (s : QuizState) (op : QuizOp)
    (hne : ∀ a, op = QuizOp.submit a → a ≠ "")
    (h : scoreInv s) : scoreInv (stepOp qs s op) := by
  cases op with
  | submit a =>
    have ha : a ≠ "" := hne a rfl
    have htr : truthy (some a) = true := by simp [truthy, ha]
    show scoreInv (handleAnswer qs s a)
    cases hsel : truthy s.selectedAnswer
    · rw [handleAnswer_of_falsy qs s a hsel]
      intro hres
      have hs' := h hres
      rw [hsel] at hs'
      simp only [Bool.false_eq_true, if_false, Nat.add_zero] at hs'
      dsimp only [scoreInv] at *
      simp only [htr, if_true]
      split <;> omega
    · rw [handleAnswer_of_truthy qs s a hsel]
      exact h
  | advance =>
    show scoreInv (nextQuestion qs s)
    rw [nextQuestion]
    split
    · intro hres
      have hs' := h hres
      simp only [truthy, Bool.false_eq_true, if_false, Nat.add_zero]
      split at hs' <;> omega
    · intro hres
      cases hres

theorem scoreInv_runOps (qs : List QuizQuestion) (ops : List QuizOp)
    (hops : ∀ a, QuizOp.submit a ∈ ops → a ≠ "") :
    ∀ s : QuizState, scoreInv s → scoreInv (runOps qs s ops) := by
  induction ops with
  | nil => intro s hs; exact hs
  | cons op rest ih =>
    intro s hs
    have h1 : scoreInv (stepOp qs s op) :=
      scoreInv_step qs s op
        (fun a hEq => hops a (hEq ▸ List.mem_cons_self op rest)) hs
    exact ih (fun a hmem => hops a (List.mem_cons_of_mem op hmem)) (stepOp qs s op) h1

/-- No operation moves the index out of a non-empty question list. -/
theorem index_lt_step (qs : List QuizQuestion) (s : QuizState) (op : QuizOp)
    (hne : qs ≠ []) (h : s.currentIndex < qs.length) :
    (stepOp qs s op).currentIndex < qs.length := by
  have hl : 1 ≤ qs.length := List.length_pos.mpr hne
  cases op with
  | submit a =>
    show (handleAnswer qs s a).currentIndex < qs.length
    cases hsel : truthy s.selectedAnswer
    · rw [handleAnswer_of_falsy qs s a hsel]; exact h
    · rw [handleAnswer_of_truthy qs s a hsel]; exact h
  | advance =>
    show (nextQuestion qs s).currentIndex < qs.length
    rw [nextQuestion]
    split
    · next hlt => dsimp only; omega
    · exact h

theorem index_lt_runOps (qs : List QuizQuestion) (ops : List QuizOp)
    (hne : qs ≠ []) :
    ∀ s : QuizState, s.currentIndex < qs.length →
      (runOps qs s ops).currentIndex < qs.length := by
  induction ops with
  | nil => intro s hs; exact hs
  | cons op rest ih =>
    intro s hs
    exact ih (stepOp qs s op) (index_lt_step qs s op hne hs)

/-! ## Concrete sessions used by witnesses and counterexamples -/

/-- A single word whose definition is the empty string. -/
def wsEmptyDef : List Word := [mkWord "a" ""]

/-- The question list built over `wsEmptyDef` (one question, empty-string
correct answer). -/
def qsEmptyDef : List QuizQuestion := buildQuestions idShufD idShufO wsEmptyDef

/-- The question list built over the scenario list with identity shuffles. -/
def qsFour : List QuizQuestion := buildQuestions idShufD idShufO wsFour

/-! ## C3, C4, C5, C6, C10: the quiz session -/

/-- C3 (amended): over any question list, for every operation sequence in
which no submitted answer is the empty string, the state reached from the
initial state satisfies `0 ≤ score`, and `score ≤ currentIndex + 1` whenever
the result screen is not yet shown; moreover no single operation, from any
state, ever decreases the score. -/
theorem quiz_session_score_invariant (qs : List QuizQuestion) (ops : List QuizOp)
    (hops : ∀ a, QuizOp.submit a ∈ ops → a ≠ "") :
    (0 ≤ (runOps qs initialQuizState ops).score ∧
      ((runOps qs initialQuizState ops).showResult = false →
        (runOps qs initialQuizState ops).score ≤
          (runOps qs initialQuizState ops).currentIndex + 1)) ∧
    (∀ (s : QuizState) (op : QuizOp), s.score ≤ (stepOp qs s op).score) := by
  refine ⟨⟨Nat.zero_le _, ?_⟩, fun s op => score_mono_step qs s op⟩
  intro hres
  have h0 : scoreInv initialQuizState := by
    intro _
    simp [initialQuizState, truthy]
  have h := scoreInv_runOps qs ops hops initialQuizState h0 hres
  split at h <;> omega

/-- C3 witness: a correct answer followed by an advance on the scenario list. -/
theorem quiz_session_score_invariant_witness :
    (0 ≤ (runOps qsFour initialQuizState
        [QuizOp.submit "고양이", QuizOp.advance]).score ∧
      ((runOps qsFour initialQuizState
          [QuizOp.submit "고양이", QuizOp.advance]).showResult = false →
        (runOps qsFour initialQuizState
            [QuizOp.submit "고양이", QuizOp.advance]).score ≤
          (runOps qsFour initialQuizState
              [QuizOp.submit "고양이", QuizOp.advance]).currentIndex + 1)) ∧
    (∀ (s : QuizState) (op : QuizOp), s.score ≤ (stepOp qsFour s op).score) :=
  quiz_session_score_invariant qsFour [QuizOp.submit "고양이", QuizOp.advance]
    (by intro a ha; simp at ha; subst ha; decide)

/-- C3 counterexample to the claim as stated: over the word list
`[{term := "a", definition := ""}]` the question's correct answer is the empty
string; submitting `""` twice leaves `selectedAnswer` falsy, so the second
submission is processed as well, and the still-in-progress state has
`score = 2 > currentIndex + 1 = 1`. -/
theorem quiz_session_score_invariant_cex :
    (runOps qsEmptyDef initialQuizState
        [QuizOp.submit "", QuizOp.submit ""]).showResult = false ∧
    (runOps qsEmptyDef initialQuizState
        [QuizOp.submit "", QuizOp.submit ""]).score = 2 ∧
    (runOps qsEmptyDef initialQuizState
        [QuizOp.submit "", QuizOp.submit ""]).currentIndex = 0 := by
  decide

/-- C4: evaluation at the failing input.  The code's guard
`if (selectedAnswer) return` is a truthiness test, so after a first submission
of the empty string (which is recorded: `selectedAnswer = some ""` and the
score is incremented for the empty-string correct answer), a second submission
of the same choice is **not** ignored: it increments the score again, changing
the state — contradicting the claim and the code's own
`// Prevent double guessing` comment. -/
theorem handleAnswer_second_submit_not_ignored :
    (handleAnswer qsEmptyDef initialQuizState "").selectedAnswer = some "" ∧
    (handleAnswer qsEmptyDef initialQuizState "").score = 1 ∧
    (handleAnswer qsEmptyDef
        (handleAnswer qsEmptyDef initialQuizState "") "").score = 2 ∧
    handleAnswer qsEmptyDef (handleAnswer qsEmptyDef initialQuizState "") "" ≠
      handleAnswer qsEmptyDef initialQuizState "" := by
  decide

/-- C5: with an answer selected, `nextQuestion` on the last index transitions
to the result screen keeping the score, and the displayed percentage is
`round(100 * score / totalQuestions)`; on any earlier index it increments the
index, clears the selection and keeps the score. -/
theorem nextQuestion_spec (qs : List QuizQuestion) (s : QuizState)
    (hsel : truthy s.selectedAnswer = true) (hne : qs ≠ []) :
    (s.currentIndex = qs.length - 1 →
      nextQuestion qs s = { s with showResult := true } ∧
      (nextQuestion qs s).score = s.score ∧
      percentage s.score qs.length =
        jsRound ((100 * s.score : ℚ) / (qs.length : ℚ))) ∧
    (s.currentIndex < qs.length - 1 →
      nextQuestion qs s =
        { s with
          currentIndex := s.currentIndex + 1
          selectedAnswer := none
          isCorrect := none } ∧
      (nextQuestion qs s).score = s.score) := by
  have hl : 1 ≤ qs.length := List.length_pos.mpr hne
  constructor
  · intro hlast
    have hnot : ¬ ((s.currentIndex : Int) < (qs.length : Int) - 1) := by omega
    rw [nextQuestion, if_neg hnot]
    refine ⟨rfl, rfl, ?_⟩
    rw [percentage, jsRound, jsRound]
    congr 1
    rw [div_mul_eq_mul_div, mul_comm]
  · intro hbefore
    have hyes : (s.currentIndex : Int) < (qs.length : Int) - 1 := by omega
    rw [nextQuestion, if_pos hyes]
    exact ⟨rfl, rfl⟩

/-- C5 witness: the last question of the scenario list with a selected answer
and score 2. -/
theorem nextQuestion_spec_witness :
    (3 = qsFour.length - 1 →
      nextQuestion qsFour
          { currentIndex := 3, score := 2, showResult := false,
            selectedAnswer := some "달", isCorrect := some true } =
        { currentIndex := 3, score := 2, showResult := true,
          selectedAnswer := some "달", isCorrect := some true } ∧
      (nextQuestion qsFour
          { currentIndex := 3, score := 2, showResult := false,
            selectedAnswer := some "달", isCorrect := some true }).score = 2 ∧
      percentage 2 qsFour.length = jsRound ((100 * 2 : ℚ) / (qsFour.length : ℚ))) ∧
    (3 < qsFour.length - 1 →
      nextQuestion qsFour
          { currentIndex := 3, score := 2, showResult := false,
            selectedAnswer := some "달", isCorrect := some true } =
        { currentIndex := 4, score := 2, showResult := false,
          selectedAnswer := none, isCorrect := none } ∧
      (nextQuestion qsFour
          { currentIndex := 3, score := 2, showResult := false,
            selectedAnswer := some "달", isCorrect := some true }).score = 2) :=
  nextQuestion_spec qsFour
    { currentIndex := 3, score := 2, showResult := false,
      selectedAnswer := some "달", isCorrect := some true }
    (by decide) (by decide)

/-- C6 (amended): `buildQuestions` on the empty word list returns the empty
question list for every shuffle outcome, and the freshly created session state
(which does not depend on the question list) is in progress — not finished —
with score 0 and index 0. -/
theorem buildQuestions_nil (shufD : Nat → List Word → List Word)
    (shufO : Nat → List String → List String) :
    buildQuestions shufD shufO [] = [] ∧
    initialQuizState.showResult = false ∧
    initialQuizState.score = 0 ∧
    initialQuizState.currentIndex = 0 :=
  ⟨rfl, rfl, rfl, rfl⟩

/-- C6 counterexample to the claim as stated: the session over zero questions
starts with `showResult = false`, i.e. it is *not* immediately in the
`Finished` state (rendering it would in fact crash on
`currentQuestion.word`); only the claim's `buildQuestions([]) = []` half
holds. -/
theorem zero_questions_not_finished :
    buildQuestions idShufD idShufO [] = [] ∧
    initialQuizState.showResult ≠ true := by
  decide

/-- C10: over the questions built from any non-empty word list, any sequence
of operations keeps `currentIndex` strictly below the number of questions, so
the `questions[currentIndex]` lookup is always defined. -/
theorem quiz_session_index_in_bounds (shufD : Nat → List Word → List Word)
    (shufO : Nat → List String → List String) (ws : List Word)
    (ops : List QuizOp) (hne : ws ≠ []) :
    (runOps (buildQuestions shufD shufO ws) initialQuizState ops).currentIndex <
      (buildQuestions shufD shufO ws).length ∧
    ((buildQuestions shufD shufO ws).get?
        (runOps (buildQuestions shufD shufO ws) initialQuizState ops).currentIndex).isSome
      = true := by
  have hq : buildQuestions shufD shufO ws ≠ [] := by
    intro hnil
    apply hne
    have hlen := buildQuestions_length shufD shufO ws
    rw [hnil] at hlen
    exact List.length_eq_zero.mp hlen.symm
  have h0 : initialQuizState.currentIndex < (buildQuestions shufD shufO ws).length :=
    List.length_pos.mpr hq
  have h := index_lt_runOps (buildQuestions shufD shufO ws) ops hq initialQuizState h0
  exact ⟨h, by rw [List.get?_eq_get h]; rfl⟩

/-- C10 witness: the scenario list with an answer-and-advance sequence. -/
theorem quiz_session_index_in_bounds_witness :
    (runOps (buildQuestions idShufD idShufO wsFour) initialQuizState
        [QuizOp.submit "개", QuizOp.advance, QuizOp.advance]).currentIndex <
      (buildQuestions idShufD idShufO wsFour).length ∧
    ((buildQuestions idShufD idShufO wsFour).get?
        (runOps (buildQuestions idShufD idShufO wsFour) initialQuizState
            [QuizOp.submit "개", QuizOp.advance, QuizOp.advance]).currentIndex).isSome
      = true :=
  quiz_session_index_in_bounds idShufD idShufO wsFour
    [QuizOp.submit "개", QuizOp.advance, QuizOp.advance] (by decide)

/-! ## C9: the word-source request -/

/-- C9: `generateWordList` returns the empty word list whenever the external
call throws, yields no response text, or yields only whitespace. -/
theorem generateWordList_empty_on_failure
    (parse : String → Except Unit (List Word))
    (response : Except Unit (Option String)) :
    (∀ e : Unit, response = .error e → generateWordList response parse = []) ∧
    (response = .ok none → generateWordList response parse = []) ∧
    (∀ t : String, response = .ok (some t) → t.trim = "" →
      generateWordList response parse = []) := by
  refine ⟨?_, ?_, ?_⟩
  · rintro e rfl
    rfl
  · rintro rfl
    rfl
  · rintro t rfl ht
    simp [generateWordList, ht]

/-- Trimming the empty string yields the empty string (proved by unfolding
the two well-founded auxiliaries one step, since `String.trim` does not reduce
definitionally). -/
theorem trim_empty : ("" : String).trim = "" := by
  have h1 : Substring.takeWhileAux "" 0 Char.isWhitespace 0 = 0 := by
    rw [Substring.takeWhileAux]
    simp
  have h2 : Substring.takeRightWhileAux "" 0 Char.isWhitespace 0 = 0 := by
    rw [Substring.takeRightWhileAux]
    simp
  simp only [String.trim, String.toSubstring, Substring.trim]
  norm_num [h1, h2]
  rfl

/-- C9 witness: a thrown error, a missing text and an empty text all yield the
empty word list. -/
theorem generateWordList_empty_on_failure_witness :
    generateWordList (.error ()) (fun _ => .ok []) = [] ∧
    generateWordList (.ok none) (fun _ => .ok []) = [] ∧
    generateWordList (.ok (some "")) (fun _ => .ok []) = [] :=
  ⟨(generateWordList_empty_on_failure (fun _ => .ok []) (.error ())).1 () rfl,
   (generateWordList_empty_on_failure (fun _ => .ok []) (.ok none)).2.1 rfl,
   (generateWordList_empty_on_failure (fun _ => .ok []) (.ok (some ""))).2.2
     "" rfl trim_empty⟩
